import Mathlib

/-!
Verification of the meta-schedule rule engine specification against
`include/tvm/meta_schedule/schedule_rule.h`.

The repository ships only the interface header: `ScheduleRuleNode` (the
abstract rule with `Apply` / `Clone`), the `ScheduleRule` reference class
with its static factory declarations (`AutoInline`, `MultiLevelTiling`,
`AddRFactor`, `CrossThreadReduction`, ...), and `PyScheduleRuleNode`.  The
rule implementations themselves are not under `src/`, so the operational
behaviour below is modelled from the specification, following the header's
doc comments for every signature and documented precondition.  The spec's
design notes prescribe a tagged-variant rule type with one open plugin
variant, explicit separation of immutable configuration from the private
mutable randomness stream, and `Apply` returning a materialized list of
candidate schedules; the model follows that structure.
-/

namespace MetaSchedule

/-- Kind of a loop axis of a block: spatial or reduction. -/
inductive AxisKind where
  | space
  | reduce
deriving DecidableEq

/-- One original loop axis of a block: its kind and its (positive) extent. -/
structure Axis where
  kind : AxisKind
  extent : Nat
deriving DecidableEq

/-- One tile level produced by multi-level tiling: the axis kind of the level
and one split factor per original axis of that kind. -/
structure TileLevel where
  kind : AxisKind
  factors : List Nat
deriving DecidableEq

/-- Modelled from the spec: a computation block inside a schedule (the header
only declares `tir::BlockRV`).  Carries the loop axes, the tiled loop nest
and the per-axis split factors once tiling ran, and the block predicates the
rule algorithms of spec section 4 consult (constant tensor / scalar
production, if-then-else constructs, injective/ordered read-to-write
mapping, operators used, producer/consumer presence, legal compute-at
locations, and whether its loops are already fully bound to hardware axes). -/
structure Block where
  name : String
  axes : List Axis
  loops : List TileLevel
  tiles : List (Axis × List Nat)
  isConstTensor : Bool
  isConstScalar : Bool
  hasIfThenElse : Bool
  injectiveMapping : Bool
  orderedMapping : Bool
  ops : List String
  hasProducer : Bool
  hasConsumer : Bool
  computeAtLocs : List Nat
  fullyBound : Bool
deriving DecidableEq

/-- Modelled from the spec: a schedule is a program representation plus a
replayable log of the mutations applied so far (the header only imports the
opaque `tir::Schedule`).  `outputs` is the program's declared output buffer
list, `trace` the mutation log. -/
structure Schedule where
  blocks : List Block
  outputs : List String
  trace : List String
deriving DecidableEq

/-- Modelled from the spec: the tuning context carries the target hardware
description (the header forward-declares `TuneContext`). -/
structure TuneContext where
  numCores : Nat
  maxThreadsPerBlock : Nat
deriving DecidableEq

/-- A rule's private randomness stream, a linear-congruential generator
state.  The spec separates this mutable state from the immutable rule
configuration. -/
structure Rng where
  state : Nat
deriving DecidableEq

/-- Draw a pseudo-random number below `bound` (for `0 < bound`), advancing
the stream. -/
def Rng.next (g : Rng) (bound : Nat) : Nat × Rng :=
  let s := (g.state * 1103515245 + 12345) % 2147483648
  (s % bound, ⟨s⟩)

/-- The positive divisors of `n`, in increasing order. -/
def divisors (n : Nat) : List Nat :=
  ((List.range n).map (fun k => k + 1)).filter (fun d => n % d == 0)

/-- Select the `i`-th element of a divisor list, defaulting to the always
legal factor `1`. -/
def pick : List Nat → Nat → Nat
  | [], _ => 1
  | d :: _, 0 => d
  | _ :: rest, i + 1 => pick rest i

/-- Modelled from the spec: sample a perfect tiling of an axis of extent `n`
into `parts` factors whose product is exactly `n` (the schedule primitive
library consumed per spec section 6 is external).  Each non-final factor is
a randomly chosen divisor of the remaining extent; the final factor is the
remainder, so the product invariant holds by construction. -/
def samplePerfectTile (g : Rng) (n : Nat) : Nat → List Nat × Rng
  | 0 => ([], g)
  | 1 => ([n], g)
  | p + 2 =>
    let ds := divisors n
    let i := (g.next ds.length).1
    let g' := (g.next ds.length).2
    let d := pick ds i
    let rest := samplePerfectTile g' (n / d) (p + 1)
    (d :: rest.1, rest.2)

/-- Split every axis of a block: a spatial axis gets `nS` factors, a
reduction axis gets `nR` factors, threading the randomness stream. -/
def splitAxes (g : Rng) (axes : List Axis) (nS nR : Nat) :
    List (Axis × List Nat) × Rng :=
  match axes with
  | [] => ([], g)
  | a :: rest =>
    let parts := match a.kind with
      | .space => nS
      | .reduce => nR
    let fs := samplePerfectTile g a.extent parts
    let restSplits := splitAxes fs.2 rest nS nR
    ((a, fs.1) :: restSplits.1, restSplits.2)

/-- Count the tokens of a given kind in a tiling-structure token list. -/
def countKind (tokens : List AxisKind) (k : AxisKind) : Nat :=
  (tokens.filter (fun t => t == k)).length

/-- Assemble the tile levels outer-to-inner in the exact order given by the
structure tokens: the `c`-th token of a kind takes the `c`-th split factor
of every axis of that kind (spec section 4.3 tie-break/ordering rule). -/
def mkLevelsAux (splits : List (Axis × List Nat)) :
    List AxisKind → Nat → Nat → List TileLevel
  | [], _, _ => []
  | t :: rest, cS, cR =>
    let c := match t with
      | .space => cS
      | .reduce => cR
    let lvl : TileLevel :=
      ⟨t, ((splits.filter (fun p => p.1.kind == t)).map (fun p => p.2.getD c 1))⟩
    match t with
    | .space => lvl :: mkLevelsAux splits rest (cS + 1) cR
    | .reduce => lvl :: mkLevelsAux splits rest cS (cR + 1)

/-- The tile levels for a token list and per-axis splits. -/
def mkLevels (tokens : List AxisKind) (splits : List (Axis × List Nat)) :
    List TileLevel :=
  mkLevelsAux splits tokens 0 0

/-- Parse one character of a tiling structure string: `S` is a spatial
level, `R` a reduction level, anything else is malformed. -/
def parseToken : Char → Option AxisKind
  | 'S' => some AxisKind.space
  | 'R' => some AxisKind.reduce
  | _ => none

/-- Parse a list of tiling structure characters; `none` on the first
malformed character. -/
def parseTokens : List Char → Option (List AxisKind)
  | [] => some []
  | c :: rest =>
    match parseToken c with
    | none => none
    | some k =>
      match parseTokens rest with
      | none => none
      | some ks => some (k :: ks)

/-- Parse a tiling structure string such as `SSRSRS` into its axis-kind
token list; `none` on any malformed character or on an empty string. -/
def parseStructure (str : String) : Option (List AxisKind) :=
  match parseTokens str.data with
  | none => none
  | some tokens => if tokens.isEmpty then none else some tokens

/-- Data-reuse configuration for one direction (spec section 3): the
requested tile levels and the candidate storage scopes. -/
structure ReuseConfig where
  levels : List Nat
  scopes : List String
deriving DecidableEq

/-- Immutable configuration of the multi-level tiling rule, validated at
construction. -/
structure MLTConfig where
  tokens : List AxisKind
  tileBinds : List String
  maxInnermostFactor : Option Nat
  vectorLoadLens : Option (List Nat)
  reuseRead : Option ReuseConfig
  reuseWrite : Option ReuseConfig
deriving DecidableEq

/-- Immutable configuration of the auto-inline rule, one field per
constructor parameter of `ScheduleRule::AutoInline` in the header. -/
structure AutoInlineConfig where
  intoProducer : Bool
  intoConsumer : Bool
  inlineConstTensor : Bool
  disallowIfThenElse : Bool
  requireInjective : Bool
  requireOrdered : Bool
  disallowOp : List String
deriving DecidableEq

/-- Modelled from the spec: the plugin bridge wraps externally supplied rule
logic (`PyScheduleRuleNode`'s packed functions; their host-side bodies are
outside this repository).  Per spec sections 4.1 and 4.6 the wrapped apply
must preserve the cloning-then-mutating contract, so it is modelled as
producing, deterministically from the tuning context, the randomness
stream and the input, the list of mutation suffixes its candidates append
to a clone of the input schedule. -/
structure PyCallbacks where
  fApply : TuneContext → Rng → Schedule → String → List (List String) × Rng

/-- The closed set of built-in rule variants plus the open plugin variant
(spec section 9 design notes), each holding its immutable configuration. -/
inductive RuleKind where
  | applyCustomRule
  | autoInline (cfg : AutoInlineConfig)
  | inlineConstantScalars
  | multiLevelTiling (cfg : MLTConfig)
  | addRFactor (maxJobsPerCore : Int) (maxInnermostFactor : Option Nat)
  | crossThreadReduction (threadExtents : List Int)
  | randomComputeLocation
  | parallelizeVectorizeUnroll (maxJobsPerCore : Int) (maxVectorizeExtent : Int)
      (unrollMaxSteps : List Nat) (unrollExplicit : Bool)
  | autoBind (maxThreadblocks : Nat) (threadExtents : List Nat)
      (maxThreadsPerBlock : Int)
  | pyScheduleRule (cbs : PyCallbacks)

/-- A schedule rule instance: immutable configuration (the kind) plus the
private mutable randomness stream (spec section 3). -/
structure ScheduleRule where
  kind : RuleKind
  rng : Rng

/-- Find the block a `BlockRV` names in a schedule. -/
def findBlock (s : Schedule) (b : String) : Option Block :=
  s.blocks.find? (fun blk => blk.name == b)

/-- Replace the named block in a block list. -/
def replaceBlock (blocks : List Block) (b : String) (nb : Block) : List Block :=
  blocks.map (fun blk => if blk.name == b then nb else blk)

/-- Remove the named block from a block list (inlining folds it away). -/
def removeBlock (blocks : List Block) (b : String) : List Block :=
  blocks.filter (fun blk => blk.name != b)

/-- A block is spatial when it has no reduction axis. -/
def Block.isSpatial (blk : Block) : Bool :=
  blk.axes.all (fun a => a.kind == .space)

/-- A block is a reduction block when it has a reduction axis. -/
def Block.isReduction (blk : Block) : Bool :=
  blk.axes.any (fun a => a.kind == .reduce)

/-- Total iteration count of a block: the product of its axis extents. -/
def Block.iterCount (blk : Block) : Nat :=
  (blk.axes.map (fun a => a.extent)).prod

/-- Iteration count of a block's reduction part: the product of the extents
of its reduction axes. -/
def Block.reductionLen (blk : Block) : Nat :=
  ((blk.axes.filter (fun a => a.kind == .reduce)).map (fun a => a.extent)).prod

/-- Modelled from the spec (section 4.2): the auto-inline gates that apply
to both inline directions — if-then-else constructs, injectivity and
ordering of the read-to-write mapping, and disallowed operators. -/
def inlineGatesOk (cfg : AutoInlineConfig) (blk : Block) : Bool :=
  (!(cfg.disallowIfThenElse && blk.hasIfThenElse)) &&
  (!cfg.requireInjective || blk.injectiveMapping) &&
  (!cfg.requireOrdered || blk.orderedMapping) &&
  blk.ops.all (fun op => !(cfg.disallowOp.contains op))

/-- Modelled from the spec (section 4.2): the auto-inline decision policy.
Only spatial blocks are inlined; gates are evaluated in fixed priority
order — constant-tensor force-inline first, then the producer direction,
then the consumer direction; the first satisfied direction wins and if none
matches the rule declines (`none`). -/
def autoInlineDecision (cfg : AutoInlineConfig) (blk : Block) : Option String :=
  if !blk.isSpatial then none
  else if cfg.inlineConstTensor && blk.isConstTensor then some "compute-inline"
  else if !(inlineGatesOk cfg blk) then none
  else if cfg.intoProducer && blk.hasProducer then some "reverse-compute-inline"
  else if cfg.intoConsumer && blk.hasConsumer then some "compute-inline"
  else none

/-- Modelled from the spec: `AutoInline` folds the target block into a
neighbour when the decision policy admits a direction, producing one
candidate derived from a clone of the input, and declines with an empty
list otherwise.  Inlining removes the block and logs the mutation; the
program's declared output buffers are untouched. -/
def applyAutoInline (cfg : AutoInlineConfig) (s : Schedule) (b : String) :
    List Schedule :=
  match findBlock s b with
  | none => []
  | some blk =>
    match autoInlineDecision cfg blk with
    | none => []
    | some op =>
      [{ s with blocks := removeBlock s.blocks b,
                trace := s.trace ++ [op ++ " " ++ b] }]

/-- Modelled from the spec: `InlineConstantScalars` inlines exactly the
blocks whose output is a single compile-time constant scalar. -/
def applyInlineConstScalars (s : Schedule) (b : String) : List Schedule :=
  match findBlock s b with
  | none => []
  | some blk =>
    if blk.isConstScalar then
      [{ s with blocks := removeBlock s.blocks b,
                trace := s.trace ++ ["inline-const-scalar " ++ b] }]
    else []

/-- The default multi-level-tiling applicability test: the block has at
least one spatial axis to tile. -/
def mltTargetable (blk : Block) : Bool :=
  blk.axes.any (fun a => a.kind == .space)

/-- Modelled from the spec (section 4.3): multi-level tiling splits every
spatial axis into as many factors as there are `S` tokens and every
reduction axis into as many factors as there are `R` tokens, assembles the
tile levels outer-to-inner in the token order, and fans out one candidate
per configured vector load length (one candidate when vectorized
cooperative fetching is disabled).  Each candidate is derived from a clone
of the input schedule by appending mutations to its trace. -/
def applyMLT (cfg : MLTConfig) (g : Rng) (s : Schedule) (b : String) :
    List Schedule × Rng :=
  match findBlock s b with
  | none => ([], g)
  | some blk =>
    if mltTargetable blk then
      let nS := countKind cfg.tokens .space
      let nR := countKind cfg.tokens .reduce
      let splits := splitAxes g blk.axes nS nR
      let tiled : Block := { blk with loops := mkLevels cfg.tokens splits.1,
                                      tiles := splits.1 }
      let base : Schedule := { s with blocks := replaceBlock s.blocks b tiled,
                                      trace := s.trace ++ ["tile " ++ b] }
      match cfg.vectorLoadLens with
      | none => ([base], splits.2)
      | some lens =>
        (lens.map (fun len =>
          { base with
              trace := base.trace ++ ["vectorize-fetch " ++ toString len] }),
         splits.2)
    else ([], g)

/-- Modelled from the spec (section 4.4): `AddRFactor` targets a reduction
block that would not reach the parallelism target `num_cores *
max_jobs_per_core`; it then splits the reduction axis and promotes part of
it, producing one candidate.  A block already meeting the target — or a
non-reduction block — makes the rule decline with an empty list.  A
non-positive `max_jobs_per_core` (the header documents `-1` to disable
parallelism) makes the target non-positive, so the rule always declines. -/
def applyAddRFactor (maxJobsPerCore : Int) (ctx : TuneContext) (s : Schedule)
    (b : String) : List Schedule :=
  match findBlock s b with
  | none => []
  | some blk =>
    if blk.isReduction &&
        ((blk.iterCount : Int) < (ctx.numCores : Int) * maxJobsPerCore) then
      [{ s with trace := s.trace ++ ["rfactor " ++ b] }]
    else []

/-- Modelled from the spec (section 4.4): `CrossThreadReduction` tries each
configured thread extent against the reduction block and emits exactly one
candidate per extent that evenly divides the reduction's iteration count;
on a non-reduction block it declines. -/
def applyCTR (threadExtents : List Int) (s : Schedule) (b : String) :
    List Schedule :=
  match findBlock s b with
  | none => []
  | some blk =>
    if blk.isReduction then
      (threadExtents.filter
        (fun e => (blk.reductionLen : Int) % e == 0)).map
        (fun e =>
          { s with trace := s.trace ++ ["bind-thread-reduce " ++ toString e] })
    else []

/-- Modelled from the spec (section 4.5): `RandomComputeLocation` uniformly
samples one legal compute-at location of a free (consumer-less) block with
the rule's private randomness stream, producing exactly one candidate;
otherwise it declines. -/
def applyRCL (g : Rng) (s : Schedule) (b : String) : List Schedule × Rng :=
  match findBlock s b with
  | none => ([], g)
  | some blk =>
    if blk.hasConsumer then ([], g)
    else if blk.computeAtLocs.isEmpty then ([], g)
    else
      let i := (g.next blk.computeAtLocs.length).1
      let loc := blk.computeAtLocs.getD i 0
      ([{ s with trace := s.trace ++ ["compute-at " ++ toString loc] }],
       (g.next blk.computeAtLocs.length).2)

/-- Modelled from the spec (section 4.5): `ParallelizeVectorizeUnroll`
annotates the target block with parallelism and vectorization hints; the
unroll step set fans out one candidate per value and an empty set disables
unrolling (a single candidate without the unroll mark). -/
def applyPVU (unrollMaxSteps : List Nat) (s : Schedule) (b : String) :
    List Schedule :=
  match findBlock s b with
  | none => []
  | some _ =>
    if unrollMaxSteps.isEmpty then
      [{ s with trace := s.trace ++ ["mark-parallel-vectorize " ++ b] }]
    else
      unrollMaxSteps.map (fun st =>
        { s with
            trace := s.trace ++
              ["mark-parallel-vectorize-unroll " ++ toString st] })

/-- Modelled from the spec (section 4.5): `AutoBind` binds unbound loops of
the target block to block/thread hardware axes and declines on an already
fully bound block. -/
def applyAutoBind (s : Schedule) (b : String) : List Schedule :=
  match findBlock s b with
  | none => []
  | some blk =>
    if blk.fullyBound then []
    else [{ s with trace := s.trace ++ ["auto-bind " ++ b] }]

/-- Modelled from the spec (sections 4.1 and 4.6): the plugin bridge
forwards `Apply` to the wrapped callback; the callback's candidates are
each derived from a clone of the input schedule by appending the
callback-chosen mutation suffix, per the contract the bridge preserves. -/
def applyPy (cbs : PyCallbacks) (ctx : TuneContext) (g : Rng) (s : Schedule)
    (b : String) : List Schedule × Rng :=
  let muts := cbs.fApply ctx g s b
  (muts.1.map (fun ms => { s with trace := s.trace ++ ms }), muts.2)

/-- Modelled from the spec: `ScheduleRuleNode::Apply` — apply the rule to
the named block, returning the materialized candidate list and the rule with
its randomness stream advanced.  `ApplyCustomRule` dispatches through an
external registry (outside this repository); with no matching registration
it declines, which is the case modelled here. -/
def ScheduleRule.Apply (r : ScheduleRule) (ctx : TuneContext) (s : Schedule)
    (b : String) : List Schedule × ScheduleRule :=
  match r.kind with
  | .applyCustomRule => ([], r)
  | .autoInline cfg => (applyAutoInline cfg s b, r)
  | .inlineConstantScalars => (applyInlineConstScalars s b, r)
  | .multiLevelTiling cfg =>
    ((applyMLT cfg r.rng s b).1, ⟨r.kind, (applyMLT cfg r.rng s b).2⟩)
  | .addRFactor m _ => (applyAddRFactor m ctx s b, r)
  | .crossThreadReduction exts => (applyCTR exts s b, r)
  | .randomComputeLocation =>
    ((applyRCL r.rng s b).1, ⟨r.kind, (applyRCL r.rng s b).2⟩)
  | .parallelizeVectorizeUnroll _ _ steps _ => (applyPVU steps s b, r)
  | .autoBind _ _ _ => (applyAutoBind s b, r)
  | .pyScheduleRule cbs =>
    ((applyPy cbs ctx r.rng s b).1, ⟨r.kind, (applyPy cbs ctx r.rng s b).2⟩)

/-- Modelled from the spec: `ScheduleRuleNode::Clone` deep-copies the
mutable internal state — the randomness stream — while the immutable
configuration may be shared (spec section 4.1). -/
def ScheduleRule.Clone (r : ScheduleRule) : ScheduleRule :=
  ⟨r.kind, Rng.mk r.rng.state⟩

/-- `ScheduleRule::IsApplyCustomRule`: true exactly for the
`ApplyCustomRule` sentinel. -/
def ScheduleRule.IsApplyCustomRule (r : ScheduleRule) : Bool :=
  match r.kind with
  | .applyCustomRule => true
  | _ => false

/-- Whether a reuse request only references tile levels that exist for its
axis kind in the chosen tiling structure (spec section 3 invariant). -/
def reuseOk (tokens : List AxisKind) (k : AxisKind) :
    Option ReuseConfig → Bool
  | none => true
  | some cfg => cfg.levels.all (fun lv => lv < countKind tokens k)

/-- Modelled from the spec: the `ScheduleRule::MultiLevelTiling` factory.
Configuration errors — a malformed tiling structure string, a reuse request
referencing a nonexistent tile level, or an empty vector-load-length
candidate set — are detected here and are fatal (`none`), per spec
section 7.  `seed` initializes the rule's private randomness stream. -/
def ScheduleRule.MultiLevelTiling (str : String) (tileBinds : List String)
    (maxInnermostFactor : Option Nat) (vectorLoadLens : Option (List Nat))
    (reuseRead reuseWrite : Option ReuseConfig) (seed : Nat) :
    Option ScheduleRule :=
  match parseStructure str with
  | none => none
  | some tokens =>
    if reuseOk tokens .reduce reuseRead && reuseOk tokens .space reuseWrite then
      match vectorLoadLens with
      | some [] => none
      | _ =>
        some ⟨.multiLevelTiling
          ⟨tokens, tileBinds, maxInnermostFactor, vectorLoadLens,
           reuseRead, reuseWrite⟩, ⟨seed⟩⟩
    else none

/-- Modelled from the spec: the `ScheduleRule::CrossThreadReduction`
factory.  The header documents that the thread-extent candidates are
required to be positive; per spec section 7 the configuration check is
fatal at construction time (`none`). -/
def ScheduleRule.CrossThreadReduction (threadExtents : List Int) (seed : Nat) :
    Option ScheduleRule :=
  if threadExtents.all (fun e => decide (0 < e)) then
    some ⟨.crossThreadReduction threadExtents, ⟨seed⟩⟩
  else none

/-- The five intrinsic roles every tensor-core intrinsic group must
provide (spec section 3). -/
def requiredRoles : List String :=
  ["init", "load_a", "load_b", "compute", "store"]

/-- Whether an intrinsic-group map provides every required role. -/
def groupOk (grp : List (String × String)) : Bool :=
  requiredRoles.all (fun role => grp.any (fun p => p.1 == role))

/-- Modelled from the spec: the `ScheduleRule::MultiLevelTilingTensorCore`
factory.  An intrinsic-group map missing one of the required roles is a
configuration error, fatal at construction time (`none`), per spec
sections 3 and 7.  The intrinsic-replacement step of its `Apply` depends on
the externally registered intrinsics (spec section 6, outside this
repository), so the constructed rule is modelled by its base multi-level
tiling behaviour. -/
def ScheduleRule.MultiLevelTilingTensorCore
    (intrinGroups : List (List (String × String))) (str : String)
    (tileBinds : List String) (maxInnermostFactor : Option Nat)
    (vectorLoadLens : Option (List Nat))
    (reuseRead reuseWrite : Option ReuseConfig)
    (useSoftwarePipeline : Bool) (seed : Nat) : Option ScheduleRule :=
  if intrinGroups.all groupOk then
    ScheduleRule.MultiLevelTiling str tileBinds maxInnermostFactor
      vectorLoadLens reuseRead reuseWrite seed
  else none

/-- The exact list of right operands of the `%` divisibility tests that
`applyCTR` evaluates on a given input: the configured extents when the
named block exists and is a reduction block, nothing otherwise. -/
def ctrModulusDivisors (threadExtents : List Int) (s : Schedule)
    (b : String) : List Int :=
  match findBlock s b with
  | none => []
  | some blk => if blk.isReduction then threadExtents else []

/-- Modelled from the spec: whether a rule targets the given input at all —
the per-kind applicability condition each `Apply` checks before producing
candidates (spec section 7 calls its failure "inapplicability").  For the
plugin variant the engine never inspects the callback, so its notion of
inapplicability is exactly "the callback produced no candidate". -/
def ScheduleRule.applicable (r : ScheduleRule) (ctx : TuneContext)
    (s : Schedule) (b : String) : Bool :=
  match r.kind with
  | .applyCustomRule => false
  | .autoInline cfg =>
    match findBlock s b with
    | none => false
    | some blk => (autoInlineDecision cfg blk).isSome
  | .inlineConstantScalars =>
    match findBlock s b with
    | none => false
    | some blk => blk.isConstScalar
  | .multiLevelTiling _ =>
    match findBlock s b with
    | none => false
    | some blk => mltTargetable blk
  | .addRFactor m _ =>
    match findBlock s b with
    | none => false
    | some blk =>
      blk.isReduction &&
        ((blk.iterCount : Int) < (ctx.numCores : Int) * m)
  | .crossThreadReduction exts =>
    match findBlock s b with
    | none => false
    | some blk =>
      blk.isReduction &&
        exts.any (fun e => (blk.reductionLen : Int) % e == 0)
  | .randomComputeLocation =>
    match findBlock s b with
    | none => false
    | some blk => !blk.hasConsumer && !blk.computeAtLocs.isEmpty
  | .parallelizeVectorizeUnroll _ _ _ _ => (findBlock s b).isSome
  | .autoBind _ _ _ =>
    match findBlock s b with
    | none => false
    | some blk => !blk.fullyBound
  | .pyScheduleRule _ => !(r.Apply ctx s b).1.isEmpty

/-- A test block with the given axes and all gate predicates at their most
permissive defaults. -/
def testBlock (axes : List Axis) : Block :=
  { name := "B", axes := axes, loops := [], tiles := [],
    isConstTensor := false, isConstScalar := false, hasIfThenElse := false,
    injectiveMapping := true, orderedMapping := true, ops := [],
    hasProducer := false, hasConsumer := false, computeAtLocs := [],
    fullyBound := false }

/-- A one-block test schedule over the given axes. -/
def testSchedule (axes : List Axis) : Schedule :=
  ⟨[testBlock axes], ["out"], []⟩

/-- A fixed test tuning context: 4 cores, 1024 threads per block. -/
def ctx0 : TuneContext := ⟨4, 1024⟩

/-- The 2-spatial-axis, 1-reduction-axis loop nest of the multi-level-tiling
test. -/
def testAxes (e1 e2 e3 : Nat) : List Axis :=
  [⟨.space, e1⟩, ⟨.space, e2⟩, ⟨.reduce, e3⟩]

/-- The SSRSRS multi-level-tiling rule instance the factory builds for the
structure string `SSRSRS` with all optional features disabled. -/
def mltRule0 : ScheduleRule :=
  ⟨.multiLevelTiling
    ⟨[.space, .space, .reduce, .space, .reduce, .space],
     [], none, none, none, none⟩, ⟨0⟩⟩

/-- The first candidate the SSRSRS tiling rule produces on the concrete
4 x 6 x 8 test block. -/
def mltCand0 : Schedule :=
  ((mltRule0.Apply ctx0 (testSchedule (testAxes 4 6 8)) "B").1).headD ⟨[], [], []⟩

/-- A concrete auto-bind rule instance. -/
def abRule : ScheduleRule := ⟨.autoBind 256 [32] (-1), ⟨0⟩⟩

/-- The candidate the auto-bind rule produces on the concrete test block. -/
def abCand : Schedule :=
  ((abRule.Apply ctx0 (testSchedule (testAxes 4 6 8)) "B").1).headD ⟨[], [], []⟩

/-- A fully permissive auto-inline configuration. -/
def aiCfg : AutoInlineConfig :=
  ⟨true, true, true, true, false, false, []⟩

/-- A spatial test block that has a consumer to inline into. -/
def aiBlock : Block :=
  { testBlock [⟨.space, 4⟩] with hasConsumer := true }

/-- A two-block test schedule whose block `B` can be auto-inlined. -/
def aiSchedule : Schedule :=
  ⟨[aiBlock, { testBlock [⟨.space, 8⟩] with name := "C" }], ["out"], []⟩

/-- The candidate auto-inline produces on `aiSchedule`. -/
def aiCand : Schedule :=
  (((ScheduleRule.mk (.autoInline aiCfg) ⟨0⟩).Apply ctx0 aiSchedule "B").1).headD
    ⟨[], [], []⟩

/-- Every element of `divisors n` divides `n` and is at least `1`. -/
theorem mem_divisors {n d : Nat} (h : d ∈ divisors n) : d ∣ n ∧ 1 ≤ d := by
  unfold divisors at h
  rw [List.mem_filter] at h
  obtain ⟨hmem, hmod⟩ := h
  rw [List.mem_map] at hmem
  obtain ⟨k, _, hk⟩ := hmem
  refine ⟨Nat.dvd_of_mod_eq_zero ?_, ?_⟩
  · simpa using hmod
  · omega

/-- `pick` preserves any property shared by the list elements and the
default factor `1`. -/
theorem pick_prop {P : Nat → Prop} :
    ∀ (ds : List Nat) (i : Nat), (∀ d ∈ ds, P d) → P 1 → P (pick ds i)
  | [], _, _, h1 => h1
  | d :: _, 0, h, _ => h d (by simp)
  | _ :: rest, i + 1, h, h1 =>
    pick_prop rest i (fun d hd => h d (by simp [hd])) h1

/-- The factor `pick` draws from the divisor list of `n` divides `n` and is
positive. -/
theorem pick_divisors (n i : Nat) :
    pick (divisors n) i ∣ n ∧ 1 ≤ pick (divisors n) i :=
  pick_prop (divisors n) i (fun _ hd => mem_divisors hd) ⟨Nat.one_dvd n, le_refl 1⟩

/-- `samplePerfectTile` produces exactly the requested number of factors. -/
theorem samplePerfectTile_length :
    ∀ (parts : Nat) (g : Rng) (n : Nat),
      ((samplePerfectTile g n parts).1).length = parts := by
  intro parts
  induction parts with
  | zero => intro g n; rfl
  | succ k ih =>
    cases k with
    | zero => intro g n; rfl
    | succ q =>
      intro g n
      simp only [samplePerfectTile, List.length_cons]
      rw [ih]

/-- The factors `samplePerfectTile` produces multiply back to the original
extent, for at least one requested part and a positive extent. -/
theorem samplePerfectTile_prod :
    ∀ (parts : Nat), 1 ≤ parts → ∀ (g : Rng) (n : Nat), 1 ≤ n →
      ((samplePerfectTile g n parts).1).prod = n := by
  intro parts
  induction parts with
  | zero => intro h; omega
  | succ k ih =>
    cases k with
    | zero => intro _ g n _; simp [samplePerfectTile]
    | succ q =>
      intro _ g n hn
      obtain ⟨hdvd, hone⟩ :=
        pick_divisors n ((g.next (divisors n).length).1)
      have hle : pick (divisors n) ((g.next (divisors n).length).1) ≤ n :=
        Nat.le_of_dvd (by omega) hdvd
      have hq : 1 ≤ n / pick (divisors n) ((g.next (divisors n).length).1) :=
        (Nat.one_le_div_iff (by omega)).mpr hle
      simp only [samplePerfectTile, List.prod_cons]
      rw [ih (by omega) _ _ hq]
      exact Nat.mul_div_cancel' hdvd

/-- `splitAxes` keeps the original axes, in order, as the first components
of its result. -/
theorem splitAxes_map_fst :
    ∀ (axes : List Axis) (g : Rng) (nS nR : Nat),
      ((splitAxes g axes nS nR).1).map Prod.fst = axes := by
  intro axes
  induction axes with
  | nil => intro g nS nR; rfl
  | cons a rest ih =>
    intro g nS nR
    simp only [splitAxes, List.map_cons]
    rw [ih]

/-- Every per-axis factor list `splitAxes` produces multiplies back to the
axis extent and has one factor per structure token of the axis kind. -/
theorem splitAxes_mem :
    ∀ (axes : List Axis) (g : Rng) (nS nR : Nat), 1 ≤ nS → 1 ≤ nR →
      (∀ a ∈ axes, 1 ≤ a.extent) →
      ∀ p ∈ (splitAxes g axes nS nR).1,
        (p.2).prod = p.1.extent ∧
        p.2.length = (if p.1.kind = AxisKind.space then nS else nR) := by
  intro axes
  induction axes with
  | nil => intro g nS nR _ _ _ p hp; simp [splitAxes] at hp
  | cons a rest ih =>
    intro g nS nR hS hR hex p hp
    simp only [splitAxes, List.mem_cons] at hp
    cases hp with
    | inl hp =>
      subst hp
      have hea : 1 ≤ a.extent := hex a (by simp)
      cases hk : a.kind with
      | space =>
        refine ⟨?_, ?_⟩
        · simp only [hk]
          exact samplePerfectTile_prod nS hS _ _ hea
        · simp [hk, samplePerfectTile_length]
      | reduce =>
        refine ⟨?_, ?_⟩
        · simp only [hk]
          exact samplePerfectTile_prod nR hR _ _ hea
        · simp only [hk, samplePerfectTile_length]
          rfl
    | inr hp =>
      exact ih _ nS nR hS hR (fun x hx => hex x (by simp [hx])) p hp

/-- The tile levels come out in exactly the kind order of the structure
tokens. -/
theorem mkLevelsAux_kinds (splits : List (Axis × List Nat)) :
    ∀ (tokens : List AxisKind) (cS cR : Nat),
      (mkLevelsAux splits tokens cS cR).map TileLevel.kind = tokens := by
  intro tokens
  induction tokens with
  | nil => intro cS cR; rfl
  | cons t rest ih =>
    intro cS cR
    cases t with
    | space => simp only [mkLevelsAux, List.map_cons]; rw [ih]
    | reduce => simp only [mkLevelsAux, List.map_cons]; rw [ih]

/-- A list is a prefix of itself extended twice. -/
theorem self_extends_twice {α : Type} (l xs ys : List α) :
    l <+: (l ++ xs) ++ ys :=
  ⟨xs ++ ys, (List.append_assoc l xs ys).symm⟩

/-- A bad character makes `parseTokens` fail. -/
theorem parseTokens_none :
    ∀ (l : List Char) (c : Char), c ∈ l → parseToken c = none →
      parseTokens l = none := by
  intro l
  induction l with
  | nil => intro c hc; simp at hc
  | cons a rest ih =>
    intro c hc hnone
    rw [List.mem_cons] at hc
    cases hc with
    | inl hc => subst hc; simp [parseTokens, hnone]
    | inr hc =>
      simp only [parseTokens]
      cases ha : parseToken a with
      | none => rfl
      | some k => rw [ih c hc hnone]

/-- Auto-inline candidates extend the input trace. -/
theorem applyAutoInline_trace {cfg : AutoInlineConfig} {s : Schedule}
    {b : String} {c : Schedule} (hc : c ∈ applyAutoInline cfg s b) :
    s.trace <+: c.trace := by
  unfold applyAutoInline at hc
  split at hc
  · simp at hc
  · split at hc
    · simp at hc
    · rw [List.mem_singleton] at hc
      subst hc
      exact List.prefix_append _ _

/-- Constant-scalar inlining candidates extend the input trace. -/
theorem applyInlineConstScalars_trace {s : Schedule} {b : String}
    {c : Schedule} (hc : c ∈ applyInlineConstScalars s b) :
    s.trace <+: c.trace := by
  unfold applyInlineConstScalars at hc
  split at hc
  · simp at hc
  · split at hc
    · rw [List.mem_singleton] at hc
      subst hc
      exact List.prefix_append _ _
    · simp at hc

/-- Multi-level-tiling candidates extend the input trace. -/
theorem applyMLT_trace {cfg : MLTConfig} {g : Rng} {s : Schedule}
    {b : String} {c : Schedule} (hc : c ∈ (applyMLT cfg g s b).1) :
    s.trace <+: c.trace := by
  unfold applyMLT at hc
  split at hc
  · simp at hc
  · split at hc
    · split at hc
      · simp only [List.mem_singleton] at hc
        subst hc
        exact List.prefix_append _ _
      · simp only [List.mem_map] at hc
        obtain ⟨len, _, hlen⟩ := hc
        subst hlen
        exact self_extends_twice _ _ _
    · simp at hc

/-- Reduction-factoring candidates extend the input trace. -/
theorem applyAddRFactor_trace {m : Int} {ctx : TuneContext} {s : Schedule}
    {b : String} {c : Schedule} (hc : c ∈ applyAddRFactor m ctx s b) :
    s.trace <+: c.trace := by
  unfold applyAddRFactor at hc
  split at hc
  · simp at hc
  · split at hc
    · rw [List.mem_singleton] at hc
      subst hc
      exact List.prefix_append _ _
    · simp at hc

/-- Cross-thread-reduction candidates extend the input trace. -/
theorem applyCTR_trace {exts : List Int} {s : Schedule} {b : String}
    {c : Schedule} (hc : c ∈ applyCTR exts s b) : s.trace <+: c.trace := by
  unfold applyCTR at hc
  split at hc
  · simp at hc
  · split at hc
    · simp only [List.mem_map] at hc
      obtain ⟨e, _, he⟩ := hc
      subst he
      exact List.prefix_append _ _
    · simp at hc

/-- Random-compute-location candidates extend the input trace. -/
theorem applyRCL_trace {g : Rng} {s : Schedule} {b : String} {c : Schedule}
    (hc : c ∈ (applyRCL g s b).1) : s.trace <+: c.trace := by
  unfold applyRCL at hc
  split at hc
  · simp at hc
  · split at hc
    · simp at hc
    · split at hc
      · simp at hc
      · simp only [List.mem_singleton] at hc
        subst hc
        exact List.prefix_append _ _

/-- Parallelize/vectorize/unroll candidates extend the input trace. -/
theorem applyPVU_trace {steps : List Nat} {s : Schedule} {b : String}
    {c : Schedule} (hc : c ∈ applyPVU steps s b) : s.trace <+: c.trace := by
  unfold applyPVU at hc
  split at hc
  · simp at hc
  · split at hc
    · rw [List.mem_singleton] at hc
      subst hc
      exact List.prefix_append _ _
    · simp only [List.mem_map] at hc
      obtain ⟨st, _, hst⟩ := hc
      subst hst
      exact List.prefix_append _ _

/-- Auto-bind candidates extend the input trace. -/
theorem applyAutoBind_trace {s : Schedule} {b : String} {c : Schedule}
    (hc : c ∈ applyAutoBind s b) : s.trace <+: c.trace := by
  unfold applyAutoBind at hc
  split at hc
  · simp at hc
  · split at hc
    · simp at hc
    · rw [List.mem_singleton] at hc
      subst hc
      exact List.prefix_append _ _

/-- Plugin-bridge candidates extend the input trace. -/
theorem applyPy_trace {cbs : PyCallbacks} {ctx : TuneContext} {g : Rng}
    {s : Schedule} {b : String} {c : Schedule}
    (hc : c ∈ (applyPy cbs ctx g s b).1) : s.trace <+: c.trace := by
  unfold applyPy at hc
  simp only [List.mem_map] at hc
  obtain ⟨ms, _, hms⟩ := hc
  subst hms
  exact List.prefix_append _ _

/-- Deep copy of a rule is propositionally the same value: same immutable
configuration, same randomness-stream state. -/
theorem Clone_eq (r : ScheduleRule) : r.Clone = r := by
  obtain ⟨k, g⟩ := r
  obtain ⟨st⟩ := g
  rfl

/-- C1.  For every schedule rule, with a fixed tuning context and a fixed
randomness seed, `Apply` is deterministic: the result (the candidate list,
order included, together with the advanced rule state) is a function of the
rule's configuration, its randomness-stream state, the tuning context and
the (schedule, block) input alone — two rule instances agreeing on
configuration and stream state produce identical results. -/
theorem Apply_deterministic (r₁ r₂ : ScheduleRule) (hk : r₁.kind = r₂.kind)
    (hg : r₁.rng = r₂.rng) (ctx : TuneContext) (s : Schedule) (b : String) :
    r₁.Apply ctx s b = r₂.Apply ctx s b := by
  obtain ⟨k₁, g₁⟩ := r₁
  obtain ⟨k₂, g₂⟩ := r₂
  have hk' : k₁ = k₂ := hk
  have hg' : g₁ = g₂ := hg
  subst hk'
  subst hg'
  rfl

/-- Witness for C1 at a concrete rule, context, schedule and block. -/
theorem Apply_deterministic_witness :
    (⟨.autoBind 256 [32] (-1), ⟨7⟩⟩ : ScheduleRule).Apply ctx0
        (testSchedule (testAxes 4 6 8)) "B" =
      (⟨.autoBind 256 [32] (-1), ⟨7⟩⟩ : ScheduleRule).Apply ctx0
        (testSchedule (testAxes 4 6 8)) "B" :=
  Apply_deterministic _ _ rfl rfl ctx0 (testSchedule (testAxes 4 6 8)) "B"

/-- C2.  `Clone()` deep-copies all mutable internal state — the randomness
stream — so the clone holds an equal stream state yet its own copy of it,
and `Apply` on the clone produces, for every input and seed, the result
sequence `Apply` on the original produces. -/
theorem Clone_independent (r : ScheduleRule) (ctx : TuneContext)
    (s : Schedule) (b : String) :
    (r.Clone).rng = r.rng ∧ (r.Clone).kind = r.kind ∧
      (r.Clone).Apply ctx s b = r.Apply ctx s b := by
  rw [Clone_eq]
  exact ⟨rfl, rfl, rfl⟩

/-- C3.  `Apply` never mutates the caller's schedule: every candidate is
derived from a clone of the input by appending mutations, so the input's
mutation log is a prefix of every candidate's log (and, the embedding being
state-passing, the input value itself is returned untouched). -/
theorem Apply_extends_trace (r : ScheduleRule) (ctx : TuneContext)
    (s : Schedule) (b : String) (c : Schedule)
    (hc : c ∈ (r.Apply ctx s b).1) : s.trace <+: c.trace := by
  obtain ⟨k, g⟩ := r
  cases k with
  | applyCustomRule => simp [ScheduleRule.Apply] at hc
  | autoInline cfg =>
    exact applyAutoInline_trace hc
  | inlineConstantScalars =>
    exact applyInlineConstScalars_trace hc
  | multiLevelTiling cfg =>
    exact applyMLT_trace hc
  | addRFactor m mif =>
    exact applyAddRFactor_trace hc
  | crossThreadReduction exts =>
    exact applyCTR_trace hc
  | randomComputeLocation =>
    exact applyRCL_trace hc
  | parallelizeVectorizeUnroll m v steps ue =>
    exact applyPVU_trace hc
  | autoBind mtb te mtpb =>
    exact applyAutoBind_trace hc
  | pyScheduleRule cbs =>
    exact applyPy_trace hc

/-- Witness for C3: the auto-bind candidate on the concrete test schedule
extends the input trace. -/
theorem Apply_extends_trace_witness :
    (testSchedule (testAxes 4 6 8)).trace <+: abCand.trace :=
  Apply_extends_trace abRule ctx0 (testSchedule (testAxes 4 6 8)) "B" abCand
    (by decide)

/-- C4.  Multi-level tiling with structure `SSRSRS` (the token form
`space,space,reduce,space,reduce,space`) applied to a block with two
spatial axes and one reduction axis produces candidates whose loop nest has
exactly 6 tile levels in exactly that spatial/reduction kind order — the
token count equals the number of tile levels — and, per original axis, the
split factors multiply back to the axis's original extent (with one factor
per token of the axis kind: 4 for spatial, 2 for reduction). -/
theorem multiLevelTiling_ssrsrs (e1 e2 e3 seed : Nat) (h1 : 1 ≤ e1)
    (h2 : 1 ≤ e2) (h3 : 1 ≤ e3) (ctx : TuneContext) (r : ScheduleRule)
    (hr : ScheduleRule.MultiLevelTiling "SSRSRS" [] none none none none seed =
      some r)
    (c : Schedule)
    (hc : c ∈ (r.Apply ctx (testSchedule (testAxes e1 e2 e3)) "B").1) :
    ∃ blk, findBlock c "B" = some blk ∧
      blk.loops.map TileLevel.kind =
        [.space, .space, .reduce, .space, .reduce, .space] ∧
      blk.loops.length = 6 ∧
      blk.tiles.map Prod.fst = testAxes e1 e2 e3 ∧
      (∀ p ∈ blk.tiles, (p.2).prod = p.1.extent ∧
        p.2.length = (if p.1.kind = AxisKind.space then 4 else 2)) := by
  have hr0 : ScheduleRule.MultiLevelTiling "SSRSRS" [] none none none none
      seed =
      some ⟨.multiLevelTiling
        ⟨[.space, .space, .reduce, .space, .reduce, .space],
         [], none, none, none, none⟩, ⟨seed⟩⟩ := rfl
  rw [hr0] at hr
  injection hr with hr
  subst hr
  have hc2 : c ∈ [{ testSchedule (testAxes e1 e2 e3) with
      blocks := replaceBlock (testSchedule (testAxes e1 e2 e3)).blocks "B"
        { testBlock (testAxes e1 e2 e3) with
            loops := mkLevels
              [.space, .space, .reduce, .space, .reduce, .space]
              (splitAxes ⟨seed⟩ (testAxes e1 e2 e3) 4 2).1,
            tiles := (splitAxes ⟨seed⟩ (testAxes e1 e2 e3) 4 2).1 },
      trace := (testSchedule (testAxes e1 e2 e3)).trace ++ ["tile " ++ "B"] }]
    := hc
  rw [List.mem_singleton] at hc2
  subst hc2
  refine ⟨_, rfl, ?_, ?_, ?_, ?_⟩
  · exact mkLevelsAux_kinds _ _ 0 0
  · have hk : (mkLevels [.space, .space, .reduce, .space, .reduce, .space]
        (splitAxes ⟨seed⟩ (testAxes e1 e2 e3) 4 2).1).map TileLevel.kind =
        [.space, .space, .reduce, .space, .reduce, .space] :=
      mkLevelsAux_kinds _ _ 0 0
    calc (mkLevels [.space, .space, .reduce, .space, .reduce, .space]
        (splitAxes ⟨seed⟩ (testAxes e1 e2 e3) 4 2).1).length
        = ((mkLevels [.space, .space, .reduce, .space, .reduce, .space]
            (splitAxes ⟨seed⟩ (testAxes e1 e2 e3) 4 2).1).map
              TileLevel.kind).length := (List.length_map _ _).symm
      _ = 6 := by rw [hk]; rfl
  · exact splitAxes_map_fst _ _ 4 2
  · refine splitAxes_mem _ _ 4 2 (by omega) (by omega) ?_
    intro a ha
    simp only [testAxes, List.mem_cons, List.not_mem_nil, or_false] at ha
    rcases ha with rfl | rfl | rfl
    · exact h1
    · exact h2
    · exact h3

/-- Witness for C4 on the concrete 4 x 6 x 8 block with seed 0. -/
theorem multiLevelTiling_ssrsrs_witness :
    ∃ blk, findBlock mltCand0 "B" = some blk ∧
      blk.loops.map TileLevel.kind =
        [.space, .space, .reduce, .space, .reduce, .space] ∧
      blk.loops.length = 6 ∧
      blk.tiles.map Prod.fst = testAxes 4 6 8 ∧
      (∀ p ∈ blk.tiles, (p.2).prod = p.1.extent ∧
        p.2.length = (if p.1.kind = AxisKind.space then 4 else 2)) :=
  multiLevelTiling_ssrsrs 4 6 8 0 (by decide) (by decide) (by decide) ctx0
    mltRule0 rfl mltCand0 (by decide)

/-- C5.  Error-handling contract: configuration errors — a malformed tiling
structure string, a reuse request referencing a nonexistent tile level, or
a non-positive thread extent — are fatal at rule-construction time (the
factory returns nothing); inapplicability at apply time is never an error —
whenever a rule does not target the given (schedule, block), `Apply`
communicates it by returning the empty candidate list. -/
theorem error_contract :
    (∀ (str : String) (tb : List String) (mif : Option Nat)
        (vl : Option (List Nat)) (rcfg wcfg : Option ReuseConfig) (seed : Nat)
        (ch : Char), ch ∈ str.data → parseToken ch = none →
        ScheduleRule.MultiLevelTiling str tb mif vl rcfg wcfg seed = none) ∧
    (∀ (str : String) (tokens : List AxisKind) (tb : List String)
        (mif : Option Nat) (vl : Option (List Nat))
        (rcfg wcfg : Option ReuseConfig) (seed : Nat),
        parseStructure str = some tokens →
        reuseOk tokens AxisKind.reduce rcfg = false →
        ScheduleRule.MultiLevelTiling str tb mif vl rcfg wcfg seed = none) ∧
    (∀ (grps : List (List (String × String))) (str : String)
        (tb : List String) (mif : Option Nat) (vl : Option (List Nat))
        (rcfg wcfg : Option ReuseConfig) (usp : Bool) (seed : Nat)
        (grp : List (String × String)), grp ∈ grps → groupOk grp = false →
        ScheduleRule.MultiLevelTilingTensorCore grps str tb mif vl rcfg wcfg
          usp seed = none) ∧
    (∀ (exts : List Int) (seed : Nat) (e : Int), e ∈ exts → e ≤ 0 →
        ScheduleRule.CrossThreadReduction exts seed = none) ∧
    (∀ (r : ScheduleRule) (ctx : TuneContext) (s : Schedule) (b : String),
        r.applicable ctx s b = false → (r.Apply ctx s b).1 = []) := by
  refine ⟨?_, ?_, ?_, ?_, ?_⟩
  · intro str tb mif vl rcfg wcfg seed ch hch hbad
    have hp : parseTokens str.data = none := parseTokens_none _ ch hch hbad
    simp [ScheduleRule.MultiLevelTiling, parseStructure, hp]
  · intro str tokens tb mif vl rcfg wcfg seed hps hro
    simp only [ScheduleRule.MultiLevelTiling]
    rw [hps]
    simp [hro]
  · intro grps str tb mif vl rcfg wcfg usp seed grp hg hbad
    have hcond : grps.all groupOk = false := by
      cases hall : grps.all groupOk with
      | false => rfl
      | true =>
        exfalso
        rw [List.all_eq_true] at hall
        rw [hall grp hg] at hbad
        simp at hbad
    simp [ScheduleRule.MultiLevelTilingTensorCore, hcond]
  · intro exts seed e he hle
    have hcond : exts.all (fun x => decide (0 < x)) = false := by
      cases hall : exts.all (fun x => decide (0 < x)) with
      | false => rfl
      | true =>
        exfalso
        rw [List.all_eq_true] at hall
        have := hall e he
        rw [decide_eq_true_eq] at this
        omega
    simp [ScheduleRule.CrossThreadReduction, hcond]
  · intro r ctx s b h
    obtain ⟨k, g⟩ := r
    cases k with
    | applyCustomRule => rfl
    | autoInline cfg =>
      simp only [ScheduleRule.applicable] at h
      simp only [ScheduleRule.Apply]
      unfold applyAutoInline
      split
      · rfl
      · next blk heq =>
        rw [heq] at h
        have h2 : (autoInlineDecision cfg blk).isSome = false := h
        split
        · rfl
        · next op heq2 => rw [heq2] at h2; simp at h2
    | inlineConstantScalars =>
      simp only [ScheduleRule.applicable] at h
      simp only [ScheduleRule.Apply]
      unfold applyInlineConstScalars
      split
      · rfl
      · next blk heq =>
        rw [heq] at h
        have h2 : blk.isConstScalar = false := h
        simp [h2]
    | multiLevelTiling cfg =>
      simp only [ScheduleRule.applicable] at h
      simp only [ScheduleRule.Apply]
      unfold applyMLT
      split
      · rfl
      · next blk heq =>
        rw [heq] at h
        have h2 : mltTargetable blk = false := h
        simp [h2]
    | addRFactor m mif =>
      simp only [ScheduleRule.applicable] at h
      simp only [ScheduleRule.Apply]
      unfold applyAddRFactor
      split
      · rfl
      · next blk heq =>
        rw [heq] at h
        have h2 : (blk.isReduction &&
            decide ((blk.iterCount : Int) < (ctx.numCores : Int) * m)) =
            false := h
        simp [h2]
    | crossThreadReduction exts =>
      simp only [ScheduleRule.applicable] at h
      simp only [ScheduleRule.Apply]
      unfold applyCTR
      split
      · rfl
      · next blk heq =>
        rw [heq] at h
        have h2 : (blk.isReduction &&
            exts.any (fun e => (blk.reductionLen : Int) % e == 0)) =
            false := h
        cases hb : blk.isReduction with
        | false => simp [hb]
        | true =>
          rw [hb, Bool.true_and] at h2
          rw [if_pos rfl, List.map_eq_nil_iff, List.filter_eq_nil_iff]
          rw [List.any_eq_false] at h2
          intro e he
          exact h2 e he
    | randomComputeLocation =>
      simp only [ScheduleRule.applicable] at h
      simp only [ScheduleRule.Apply]
      unfold applyRCL
      split
      · rfl
      · next blk heq =>
        rw [heq] at h
        have h2 : (!blk.hasConsumer && !blk.computeAtLocs.isEmpty) =
            false := h
        cases hcons : blk.hasConsumer with
        | true => simp [hcons]
        | false =>
          rw [hcons, Bool.not_false, Bool.true_and, Bool.not_eq_false'] at h2
          simp [hcons, h2]
    | parallelizeVectorizeUnroll m v steps ue =>
      simp only [ScheduleRule.applicable] at h
      simp only [ScheduleRule.Apply]
      unfold applyPVU
      split
      · rfl
      · next blk heq => rw [heq] at h; simp at h
    | autoBind mtb te mtpb =>
      simp only [ScheduleRule.applicable] at h
      simp only [ScheduleRule.Apply]
      unfold applyAutoBind
      split
      · rfl
      · next blk heq =>
        rw [heq] at h
        have h2 : (!blk.fullyBound) = false := h
        rw [Bool.not_eq_false'] at h2
        simp [h2]
    | pyScheduleRule cbs =>
      simp only [ScheduleRule.applicable] at h
      rw [Bool.not_eq_false'] at h
      rw [List.isEmpty_iff] at h
      exact h

/-- Witness for C5: the sentinel declines on a concrete input with an empty
list, and a malformed structure string is rejected at construction. -/
theorem error_contract_witness :
    ((⟨RuleKind.applyCustomRule, ⟨0⟩⟩ : ScheduleRule).Apply ctx0
        (testSchedule (testAxes 4 6 8)) "B").1 = [] ∧
      ScheduleRule.MultiLevelTiling "SSXRS" [] none none none none 0 = none :=
  ⟨error_contract.2.2.2.2 ⟨RuleKind.applyCustomRule, ⟨0⟩⟩ ctx0
      (testSchedule (testAxes 4 6 8)) "B" rfl,
    error_contract.1 "SSXRS" [] none none none none 0 'X' (by decide) rfl⟩

/-- C6.  `AddRFactor` applied to a reduction block whose iteration count
already meets the parallelism target `num_cores * max_jobs_per_core`
returns the empty sequence: the rule declines. -/
theorem addRFactor_declines_when_parallel (m : Int) (mif : Option Nat)
    (g : Rng) (ctx : TuneContext) (s : Schedule) (b : String) (blk : Block)
    (hf : findBlock s b = some blk) (hred : blk.isReduction = true)
    (hpar : (ctx.numCores : Int) * m ≤ (blk.iterCount : Int)) :
    ((ScheduleRule.mk (.addRFactor m mif) g).Apply ctx s b).1 = [] := by
  simp only [ScheduleRule.Apply]
  unfold applyAddRFactor
  rw [hf]
  have hlt : ¬ ((blk.iterCount : Int) < (ctx.numCores : Int) * m) :=
    not_lt.mpr hpar
  simp [hlt]

/-- Witness for C6: with 4 cores and 2 jobs per core, a reduction block of
8 iterations already meets the target and the rule declines. -/
theorem addRFactor_declines_when_parallel_witness :
    ((ScheduleRule.mk (.addRFactor 2 none) ⟨0⟩).Apply ctx0
      (testSchedule [⟨.reduce, 8⟩]) "B").1 = [] :=
  addRFactor_declines_when_parallel 2 none ⟨0⟩ ctx0
    (testSchedule [⟨.reduce, 8⟩]) "B" (testBlock [⟨.reduce, 8⟩]) rfl rfl
    (by decide)

/-- C7.  `CrossThreadReduction` yields exactly one candidate per configured
thread extent that evenly divides the reduction axis's iteration count:
extents `[32, 64]` against a reduction axis of length 128 yield exactly two
candidates, extents `[32, 50]` yield exactly one. -/
theorem crossThreadReduction_counts :
    ScheduleRule.CrossThreadReduction [32, 64] 0 =
      some ⟨.crossThreadReduction [32, 64], ⟨0⟩⟩ ∧
    ScheduleRule.CrossThreadReduction [32, 50] 0 =
      some ⟨.crossThreadReduction [32, 50], ⟨0⟩⟩ ∧
    ((ScheduleRule.mk (.crossThreadReduction [32, 64]) ⟨0⟩).Apply ctx0
      (testSchedule [⟨.reduce, 128⟩]) "B").1.length = 2 ∧
    ((ScheduleRule.mk (.crossThreadReduction [32, 50]) ⟨0⟩).Apply ctx0
      (testSchedule [⟨.reduce, 128⟩]) "B").1.length = 1 :=
  ⟨rfl, rfl, by decide, by decide⟩

/-- C8.  Auto-inlining is output-preserving: every candidate schedule the
`AutoInline` rule produces declares exactly the output buffers of the input
program. -/
theorem autoInline_preserves_outputs (cfg : AutoInlineConfig) (g : Rng)
    (ctx : TuneContext) (s : Schedule) (b : String) (c : Schedule)
    (hc : c ∈ ((ScheduleRule.mk (.autoInline cfg) g).Apply ctx s b).1) :
    c.outputs = s.outputs := by
  have hc2 : c ∈ applyAutoInline cfg s b := hc
  unfold applyAutoInline at hc2
  split at hc2
  · simp at hc2
  · split at hc2
    · simp at hc2
    · rw [List.mem_singleton] at hc2
      subst hc2
      rfl

/-- Witness for C8: the concrete auto-inline candidate keeps the declared
outputs. -/
theorem autoInline_preserves_outputs_witness :
    aiCand.outputs = aiSchedule.outputs :=
  autoInline_preserves_outputs aiCfg ⟨0⟩ ctx0 aiSchedule "B" aiCand
    (by decide)

/-- C9.  `IsApplyCustomRule` holds exactly for the `ApplyCustomRule`
sentinel: it is true if and only if the rule's kind is the sentinel kind,
and in particular false for every plugin-wrapped (`PyScheduleRule`) rule. -/
theorem isApplyCustomRule_spec :
    (∀ r : ScheduleRule,
      r.IsApplyCustomRule = true ↔ r.kind = RuleKind.applyCustomRule) ∧
    (∀ (cbs : PyCallbacks) (g : Rng),
      ScheduleRule.IsApplyCustomRule ⟨.pyScheduleRule cbs, g⟩ = false) := by
  constructor
  · intro r
    obtain ⟨k, g⟩ := r
    cases k <;> simp [ScheduleRule.IsApplyCustomRule]
  · intro cbs g
    rfl

/-- Witness for C9 at the sentinel and at a concrete plugin rule. -/
theorem isApplyCustomRule_spec_witness :
    ((⟨RuleKind.applyCustomRule, ⟨0⟩⟩ : ScheduleRule).IsApplyCustomRule =
        true ↔
      (⟨RuleKind.applyCustomRule, ⟨0⟩⟩ : ScheduleRule).kind =
        RuleKind.applyCustomRule) ∧
    ScheduleRule.IsApplyCustomRule
      ⟨.pyScheduleRule ⟨fun _ g _ _ => ([], g)⟩, ⟨0⟩⟩ = false :=
  ⟨isApplyCustomRule_spec.1 _, isApplyCustomRule_spec.2 _ _⟩

/-- C10.  The `CrossThreadReduction` factory presupposes strictly positive
thread extents (the header documents the requirement); under that
precondition construction succeeds and every right operand of the `%`
divisibility tests `Apply` evaluates is nonzero, so no modulus by zero
occurs. -/
theorem crossThreadReduction_positive (exts : List Int) (seed : Nat)
    (hpos : ∀ e ∈ exts, 0 < e) :
    ScheduleRule.CrossThreadReduction exts seed =
      some ⟨.crossThreadReduction exts, ⟨seed⟩⟩ ∧
    (∀ (s : Schedule) (b : String) (e : Int),
      e ∈ ctrModulusDivisors exts s b → e ≠ 0) := by
  constructor
  · unfold ScheduleRule.CrossThreadReduction
    rw [if_pos]
    rw [List.all_eq_true]
    intro e he
    rw [decide_eq_true_eq]
    exact hpos e he
  · intro s b e he
    unfold ctrModulusDivisors at he
    split at he
    · simp at he
    · split at he
      · exact (hpos e he).ne'
      · simp at he

/-- Witness for C10: extents `[32, 64]` are positive; construction succeeds
and the divisor `32` used on the concrete reduction schedule is nonzero. -/
theorem crossThreadReduction_positive_witness :
    ScheduleRule.CrossThreadReduction [32, 64] 1 =
      some ⟨.crossThreadReduction [32, 64], ⟨1⟩⟩ ∧ (32 : Int) ≠ 0 :=
  ⟨(crossThreadReduction_positive [32, 64] 1 (by decide)).1,
    (crossThreadReduction_positive [32, 64] 1 (by decide)).2
      (testSchedule [⟨.reduce, 128⟩]) "B" 32 (by decide)⟩

end MetaSchedule
